import Mathlib

/-!
# HARD audio processor: ring-buffer pipeline, inference trigger, parameter linking

A shallow embedding of `Source/PluginProcessor.cpp` (constructor, `prepareToPlay`,
`processBlock`) together with the properties stated about it.

Modelling conventions.

* Audio samples and parameter values are finite `float`s.  The processor only copies
  them, compares them (`!=`, `>`) and writes literal zeros, so they are represented by
  the rationals they denote (`ℚ`); no floating-point arithmetic is performed by the
  embedded code.
* The constants `DNN_INPUT_SAMPLES`, `DNN_INPUT_CACHE_SAMPLES`, `OUTPUT_DELAY_SAMPLES`
  and `OUTPUT_DELAY_BIAS_SAMPLES` live in a header that is not part of the sources at
  hand; they are the fields of `Config`.
* The class `RingBuffer` and the inference thread are declared in headers that are not
  part of the sources at hand; they are modelled from the written specification and
  marked as such.
* `processBlock` is instrumented: besides the new state and the host buffer it returns
  the sequence of lock operations, ring-buffer accesses and executor calls it performs,
  in program order.
-/

namespace HARD

/-- One stereo sample: left and right channel value. -/
abbrev Frame := ℚ × ℚ

/-- The silent stereo sample. -/
def zeroFrame : Frame := (0, 0)

/-- The compile-time constants used by the processor (their header is absent). -/
structure Config where
  DNN_INPUT_SAMPLES : Nat
  DNN_INPUT_CACHE_SAMPLES : Nat
  OUTPUT_DELAY_SAMPLES : Nat
  OUTPUT_DELAY_BIAS_SAMPLES : Nat
  deriving Repr, DecidableEq

/-! ## RingBuffer -/

/-- Modelled from the spec: the class RingBuffer (its header is absent).  A stereo FIFO
with fixed capacity; `data` lists the retained samples, oldest first, so the count of
valid samples is `data.length`. -/
structure RingBuffer where
  capacity : Nat
  data : List Frame
  deriving Repr, DecidableEq

namespace RingBuffer

/-- Modelled from the spec: `size()` returns the current count. -/
def size (rb : RingBuffer) : Nat := rb.data.length

/-- Modelled from the spec: `push` appends the samples; when the count would exceed the
capacity the oldest unread samples are overwritten and the count is capped at the
capacity. -/
def push (rb : RingBuffer) (xs : List Frame) : RingBuffer :=
  { rb with data := (rb.data ++ xs).drop ((rb.data ++ xs).length - rb.capacity) }

/-- Modelled from the spec: `read` copies `n` samples starting `readOffset` samples from
the oldest retained sample, without removing them; it fails when
`count < readOffset + n`. -/
def read (rb : RingBuffer) (readOffset n : Nat) : Option (List Frame) :=
  if rb.size < readOffset + n then none else some ((rb.data.drop readOffset).take n)

/-- Modelled from the spec: `consume` advances past the `n` oldest samples. -/
def consume (rb : RingBuffer) (n : Nat) : RingBuffer :=
  { rb with data := rb.data.drop n }

/-- Modelled from the spec: `clear` resets the count to zero. -/
def clear (rb : RingBuffer) : RingBuffer :=
  { rb with data := [] }

/-- Modelled from the spec: `fillZeros n` seeds `n` silent samples.  It is only ever
applied to a buffer that has just been cleared. -/
def fillZeros (rb : RingBuffer) (n : Nat) : RingBuffer :=
  rb.push (List.replicate n zeroFrame)

/-- Modelled from the spec: the call `clearBuffer()` of the source is `clear`. -/
def clearBuffer (rb : RingBuffer) : RingBuffer := rb.clear

/-- Modelled from the spec: the call `getBufferSize()` of the source is `size`. -/
def getBufferSize (rb : RingBuffer) : Nat := rb.size

/-- Modelled from the spec: the call `pushData(left, right, numSamples)` of the source
is `push` of the `numSamples` stereo samples behind the two pointers. -/
def pushData (rb : RingBuffer) (xs : List Frame) : RingBuffer := rb.push xs

/-- Modelled from the spec: the call `readData(dest, numRead, numConsume)` of the
source: read `numRead` samples from the oldest one on and consume `numConsume` of
them; a failed read leaves the buffer untouched. -/
def readData (rb : RingBuffer) (numRead numConsume : Nat) :
    Option (List Frame) × RingBuffer :=
  match rb.read 0 numRead with
  | none => (none, rb)
  | some w => (some w, rb.consume numConsume)

/-- Modelled from the spec: the call `readData(buffer, offset, numSamples)` of the
source: copy `numSamples` samples into the host buffer and consume them; a failed read
leaves the buffer untouched. -/
def readDataToBuffer (rb : RingBuffer) (readOffset numSamples : Nat) :
    Option (List Frame) × RingBuffer :=
  match rb.read readOffset numSamples with
  | none => (none, rb)
  | some w => (some w, rb.consume numSamples)

end RingBuffer

/-! ## Processor state -/

/-- The arguments of one call of `requestInference`: the two input windows as they are
when the call is made, and the three scalar controls. -/
structure InferenceRequest where
  input1 : List Frame
  input2 : List Frame
  rhythm : ℚ
  harmony : ℚ
  sync : ℚ
  deriving Repr, DecidableEq

/-- The members of `HARDAudioProcessor` that the embedded functions touch.  The five
`...Parameter` fields are the values behind the raw parameter pointers. -/
structure HARDAudioProcessor where
  fifoBufferIn1 : RingBuffer
  fifoBufferIn2 : RingBuffer
  fifoBufferOutDNN : RingBuffer
  numNewInputSamples : Nat
  dnnInputData1 : List Frame
  dnnInputData2 : List Frame
  harmonyParameter : ℚ
  rhythmParameter : ℚ
  sourceGainParameter : ℚ
  sidechainGainParameter : ℚ
  syncParameter : ℚ
  preHarmonyParam : ℚ
  preRhythmParam : ℚ
  latencySamples : Int
  deriving Repr, DecidableEq

/-- One sample position of the host buffer: the main bus (channels 0 and 1, also the
output) and the sidechain bus (channels 2 and 3). -/
structure HostSample where
  main : Frame
  side : Frame
  deriving Repr, DecidableEq

/-- The three shared ring buffers. -/
inductive Buf where
  | fifoBufferIn1
  | fifoBufferIn2
  | fifoBufferOutDNN
  deriving Repr, DecidableEq

/-- The ring-buffer member functions called by `processBlock`. -/
inductive BufOp where
  | pushData
  | readData
  | getBufferSize
  deriving Repr, DecidableEq

/-- What `processBlock` does to shared objects, in program order. -/
inductive Action where
  | lock
  | unlock
  | access (b : Buf) (op : BufOp)
  | threadIsInferring
  | requestInference (r : InferenceRequest)
  deriving Repr, DecidableEq

/-- The result of one `processBlock` call. -/
structure ProcessResult where
  state : HARDAudioProcessor
  buffer : List HostSample
  trace : List Action
  deriving Repr, DecidableEq

/-- The constructor body (lines 44-54).  `m` holds the members as their in-class
initialisers (in the absent header) leave them; the parameter layout gives the five
parameters their default values. -/
def construct (cfg : Config) (m : HARDAudioProcessor) : HARDAudioProcessor :=
  { m with
    fifoBufferIn1 := m.fifoBufferIn1.clearBuffer
    fifoBufferIn2 := m.fifoBufferIn2.clearBuffer
    fifoBufferOutDNN := m.fifoBufferOutDNN.clearBuffer
    latencySamples := (cfg.OUTPUT_DELAY_SAMPLES : Int) - (cfg.OUTPUT_DELAY_BIAS_SAMPLES : Int)
    harmonyParameter := 0
    rhythmParameter := 0
    sourceGainParameter := 1
    sidechainGainParameter := 1
    syncParameter := 0 }

/-- The function `prepareToPlay` (lines 123-129); both arguments are unused. -/
def prepareToPlay (cfg : Config) (s : HARDAudioProcessor) (_sampleRate : ℚ)
    (_samplesPerBlock : Int) : HARDAudioProcessor :=
  { s with
    fifoBufferIn1 := s.fifoBufferIn1.clearBuffer
    fifoBufferIn2 := s.fifoBufferIn2.clearBuffer
    fifoBufferOutDNN := (s.fifoBufferOutDNN.clearBuffer).fillZeros cfg.OUTPUT_DELAY_SAMPLES }

/-- The function `processBlock` (lines 156-212).  `buffer` is the host buffer
(`numSamples` positions of main and sidechain bus); `busy` is what
`threadIsInferring()` answers during this call. -/
def processBlock (cfg : Config) (s : HARDAudioProcessor) (buffer : List HostSample)
    (busy : Bool) : ProcessResult :=
  let numSamples := buffer.length
  let isSyncMode : Bool := decide (s.syncParameter > 1 / 2)
  -- first scoped lock: push both inputs, count the new samples
  let in1 := s.fifoBufferIn1.pushData (buffer.map HostSample.main)
  let in2 := s.fifoBufferIn2.pushData (buffer.map HostSample.side)
  let numNew := s.numNewInputSamples + numSamples
  let tPush : List Action :=
    [.lock, .access .fifoBufferIn1 .pushData, .access .fifoBufferIn2 .pushData, .unlock]
  -- parameter linking; the pair is (harmony, rhythm)
  let linked : ℚ × ℚ :=
    if isSyncMode then
      if s.harmonyParameter ≠ s.preHarmonyParam then
        (s.harmonyParameter, s.harmonyParameter)
      else if s.rhythmParameter ≠ s.preRhythmParam then
        (s.rhythmParameter, s.rhythmParameter)
      else (s.harmonyParameter, s.rhythmParameter)
    else (s.harmonyParameter, s.rhythmParameter)
  let harmony := linked.1
  let rhythm := linked.2
  -- trigger condition, evaluated left to right with short circuit, no lock held
  let c1 : Bool := decide (numNew ≥ cfg.DNN_INPUT_SAMPLES)
  let c2 : Bool :=
    decide (in1.getBufferSize ≥ cfg.DNN_INPUT_SAMPLES + cfg.DNN_INPUT_CACHE_SAMPLES)
  let tCond : List Action :=
    if c1 then
      Action.access .fifoBufferIn1 .getBufferSize :: (if c2 then [.threadIsInferring] else [])
    else []
  -- trigger body, under the second scoped lock
  let r1 := in1.readData (cfg.DNN_INPUT_SAMPLES + cfg.DNN_INPUT_CACHE_SAMPLES)
    cfg.DNN_INPUT_SAMPLES
  let r2 := in2.readData (cfg.DNN_INPUT_SAMPLES + cfg.DNN_INPUT_CACHE_SAMPLES)
    cfg.DNN_INPUT_SAMPLES
  let d1 := r1.1.getD s.dnnInputData1
  let d2 := r2.1.getD s.dnnInputData2
  let fire : Bool := c1 && c2 && !busy
  let tFire : List Action :=
    if fire then
      [.lock, .access .fifoBufferIn1 .getBufferSize, .access .fifoBufferIn1 .readData,
       .access .fifoBufferIn2 .readData,
       .requestInference ⟨d1, d2, rhythm, harmony, s.syncParameter⟩, .unlock]
    else []
  -- third scoped lock: output delivery
  let enough : Bool := decide (s.fifoBufferOutDNN.getBufferSize ≥ numSamples)
  let ro := s.fifoBufferOutDNN.readDataToBuffer 0 numSamples
  let outBuffer : List HostSample :=
    if enough then
      match ro.1 with
      | some w => List.zipWith (fun h f => { h with main := f }) buffer w
      | none => buffer
    else buffer.map (fun _ => ⟨zeroFrame, zeroFrame⟩)
  let tOut : List Action :=
    [.lock, .access .fifoBufferOutDNN .getBufferSize] ++
      (if enough then [.access .fifoBufferOutDNN .readData] else []) ++ [.unlock]
  { state :=
      { s with
        fifoBufferIn1 := if fire then r1.2 else in1
        fifoBufferIn2 := if fire then r2.2 else in2
        fifoBufferOutDNN := if enough then ro.2 else s.fifoBufferOutDNN
        numNewInputSamples := if fire then numNew - cfg.DNN_INPUT_SAMPLES else numNew
        dnnInputData1 := if fire then d1 else s.dnnInputData1
        dnnInputData2 := if fire then d2 else s.dnnInputData2
        harmonyParameter := harmony
        rhythmParameter := rhythm
        preRhythmParam := rhythm
        preHarmonyParam := harmony }
    buffer := outBuffer
    trace := tPush ++ tCond ++ tFire ++ tOut }

/-! ## Environment: the host, the parameter tree and the inference worker -/

/-- What can happen to the processor between two points of its life. -/
inductive Event where
  | prepareToPlay (sampleRate : ℚ) (samplesPerBlock : Int)
  | processBlock (buffer : List HostSample) (busy : Bool)
  | setParameters (harmony rhythm sourceGain sidechainGain sync : ℚ)
  | inferenceResult (out : List Frame)
  deriving Repr, DecidableEq

/-- The host or the editor writes the five parameters of the parameter tree. -/
def setParameters (s : HARDAudioProcessor) (harmony rhythm sourceGain sidechainGain sync : ℚ) :
    HARDAudioProcessor :=
  { s with
    harmonyParameter := harmony
    rhythmParameter := rhythm
    sourceGainParameter := sourceGain
    sidechainGainParameter := sidechainGain
    syncParameter := sync }

/-- Modelled from the spec: the worker of the inference thread (absent from the sources
at hand) pushes its output window into the output ring buffer under the shared lock. -/
def inferenceResult (s : HARDAudioProcessor) (out : List Frame) : HARDAudioProcessor :=
  { s with fifoBufferOutDNN := s.fifoBufferOutDNN.pushData out }

/-- One event: the new state and the samples written to the host output (main bus). -/
def step (cfg : Config) (s : HARDAudioProcessor) : Event → HARDAudioProcessor × List Frame
  | .prepareToPlay sr n => (prepareToPlay cfg s sr n, [])
  | .processBlock buffer busy =>
      ((processBlock cfg s buffer busy).state,
        (processBlock cfg s buffer busy).buffer.map HostSample.main)
  | .setParameters h r sg scg sy => (setParameters s h r sg scg sy, [])
  | .inferenceResult out => (inferenceResult s out, [])

/-- The state after a sequence of events. -/
def run (cfg : Config) : HARDAudioProcessor → List Event → HARDAudioProcessor
  | s, [] => s
  | s, e :: es => run cfg (step cfg s e).1 es

/-- The samples written to the host output during a sequence of events, in order. -/
def hostOutput (cfg : Config) : HARDAudioProcessor → List Event → List Frame
  | _, [] => []
  | s, e :: es => (step cfg s e).2 ++ hostOutput cfg (step cfg s e).1 es

/-- No inference result overflows the output ring buffer during the sequence. -/
def noOverflow (cfg : Config) : HARDAudioProcessor → List Event → Bool
  | _, [] => true
  | s, .inferenceResult out :: es =>
      decide (s.fifoBufferOutDNN.size + out.length ≤ s.fifoBufferOutDNN.capacity) &&
        noOverflow cfg (step cfg s (.inferenceResult out)).1 es
  | s, e :: es => noOverflow cfg (step cfg s e).1 es

/-- The event is not a (re)start of the stream. -/
def Event.isStream : Event → Bool
  | .prepareToPlay _ _ => false
  | _ => true

/-! ## Observations on the trace of `processBlock` -/

/-- The requests submitted in a trace. -/
def requests : List Action → List InferenceRequest
  | [] => []
  | .requestInference r :: t => r :: requests t
  | _ :: t => requests t

/-- The ring-buffer accesses made while the lock is not held; `held` tells whether the
lock is held at the start of the trace. -/
def unlockedAccesses : Bool → List Action → List (Buf × BufOp)
  | _, [] => []
  | _, .lock :: t => unlockedAccesses true t
  | _, .unlock :: t => unlockedAccesses false t
  | held, .access b op :: t =>
      if held then unlockedAccesses held t else (b, op) :: unlockedAccesses held t
  | held, _ :: t => unlockedAccesses held t

/-- The ring-buffer accesses of a trace, with the operation performed. -/
def accesses : List Action → List (Buf × BufOp)
  | [] => []
  | .access b op :: t => (b, op) :: accesses t
  | _ :: t => accesses t

/-- The reference function for parameter linking, as the specification words it; the
pair is (harmony, rhythm). -/
def linkReference (sync h r ph pr : ℚ) : ℚ × ℚ :=
  if sync > 1 / 2 ∧ h ≠ ph then (h, h)
  else if sync > 1 / 2 ∧ r ≠ pr then (r, r)
  else (h, r)

/-- The constants of the end-to-end scenario. -/
def specConfig : Config :=
  { DNN_INPUT_SAMPLES := 1024
    DNN_INPUT_CACHE_SAMPLES := 256
    OUTPUT_DELAY_SAMPLES := 2048
    OUTPUT_DELAY_BIAS_SAMPLES := 128 }

/-- Members before the constructor body runs, with ring buffers of capacity `cap`. -/
def blankMembers (cap : Nat) : HARDAudioProcessor :=
  { fifoBufferIn1 := ⟨cap, []⟩
    fifoBufferIn2 := ⟨cap, []⟩
    fifoBufferOutDNN := ⟨cap, []⟩
    numNewInputSamples := 0
    dnnInputData1 := []
    dnnInputData2 := []
    harmonyParameter := 0
    rhythmParameter := 0
    sourceGainParameter := 0
    sidechainGainParameter := 0
    syncParameter := 0
    preHarmonyParam := 0
    preRhythmParam := 0
    latencySamples := 0 }

/-! ## Auxiliary definitions for the statements -/

/-- The trigger condition as the specification words it, on the state before the call:
after the push the counter has reached the window, input ring buffer 1 holds window
plus cache, and the executor is not busy. -/
def triggerCondition (cfg : Config) (s : HARDAudioProcessor) (buffer : List HostSample)
    (busy : Bool) : Prop :=
  s.numNewInputSamples + buffer.length ≥ cfg.DNN_INPUT_SAMPLES ∧
    (s.fifoBufferIn1.pushData (buffer.map HostSample.main)).getBufferSize
      ≥ cfg.DNN_INPUT_SAMPLES + cfg.DNN_INPUT_CACHE_SAMPLES ∧
    busy = false

instance (cfg : Config) (s : HARDAudioProcessor) (buffer : List HostSample) (busy : Bool) :
    Decidable (triggerCondition cfg s buffer busy) := by
  unfold triggerCondition; infer_instance

/-- The request that `processBlock` builds when the trigger fires. -/
def builtRequest (cfg : Config) (s : HARDAudioProcessor) (buffer : List HostSample)
    (busy : Bool) : InferenceRequest :=
  ⟨(processBlock cfg s buffer busy).state.dnnInputData1,
    (processBlock cfg s buffer busy).state.dnnInputData2,
    (processBlock cfg s buffer busy).state.rhythmParameter,
    (processBlock cfg s buffer busy).state.harmonyParameter,
    s.syncParameter⟩

/-- The two input ring buffers have the same capacity and hold the same number of
samples. -/
def inputsAligned (s : HARDAudioProcessor) : Prop :=
  s.fifoBufferIn1.capacity = s.fifoBufferIn2.capacity ∧
    s.fifoBufferIn1.size = s.fifoBufferIn2.size

/-- States the processor can be in: the constructor ran on members whose two input ring
buffers have the same capacity, then any sequence of events happened. -/
def Reachable (cfg : Config) (s : HARDAudioProcessor) : Prop :=
  ∃ (m : HARDAudioProcessor) (es : List Event),
    m.fifoBufferIn1.capacity = m.fifoBufferIn2.capacity ∧ s = run cfg (construct cfg m) es

/-- A small configuration for concrete scenarios: window 2, cache 1, delay 4, bias 1. -/
def smallConfig : Config :=
  { DNN_INPUT_SAMPLES := 2
    DNN_INPUT_CACHE_SAMPLES := 1
    OUTPUT_DELAY_SAMPLES := 4
    OUTPUT_DELAY_BIAS_SAMPLES := 1 }

/-- A host block of three samples. -/
def smallBlock : List HostSample :=
  [⟨(1, 2), (3, 4)⟩, ⟨(5, 6), (7, 8)⟩, ⟨(9, 10), (11, 12)⟩]

/-- The processor right after construction and `prepareToPlay`, ring buffers of
capacity 8. -/
def smallStart : HARDAudioProcessor :=
  run smallConfig (construct smallConfig (blankMembers 8)) [.prepareToPlay 48000 3]

/-- The host writes the harmony parameter. -/
def setHarmony (s : HARDAudioProcessor) (v : ℚ) : HARDAudioProcessor :=
  setParameters s v s.rhythmParameter s.sourceGainParameter s.sidechainGainParameter
    s.syncParameter

/-- The host writes the rhythm parameter. -/
def setRhythm (s : HARDAudioProcessor) (v : ℚ) : HARDAudioProcessor :=
  setParameters s s.harmonyParameter v s.sourceGainParameter s.sidechainGainParameter
    s.syncParameter

/-- The processor after construction with the sync parameter switched on, ring buffers
of capacity 8. -/
def syncStart : HARDAudioProcessor :=
  setParameters (construct smallConfig (blankMembers 8)) 0 0 1 1 1

/-- The first `j` samples of `l` exist and are silent. -/
def Lead (j : Nat) (l : List Frame) : Prop :=
  j ≤ l.length ∧ ∀ f ∈ l.take j, f = zeroFrame

/-- The number of samples the host asks for during a sequence of events. -/
def blockSamples : List Event → Nat
  | [] => 0
  | .processBlock buffer _ :: es => buffer.length + blockSamples es
  | _ :: es => blockSamples es

/-- A host block of 1024 silent samples on both buses. -/
def zeroBlock : List HostSample := List.replicate 1024 ⟨zeroFrame, zeroFrame⟩

/-- Four callbacks of 1024 silent samples each, the executor idle. -/
def fourZeroCallbacks : List Event :=
  [.processBlock zeroBlock false, .processBlock zeroBlock false,
   .processBlock zeroBlock false, .processBlock zeroBlock false]

/-! ## Basic facts -/

theorem RingBuffer.size_push (rb : RingBuffer) (xs : List Frame) :
    (rb.push xs).size = min (rb.size + xs.length) rb.capacity := by
  simp only [RingBuffer.push, RingBuffer.size, List.length_drop, List.length_append]
  omega

theorem RingBuffer.push_of_fits (rb : RingBuffer) (xs : List Frame)
    (h : rb.size + xs.length ≤ rb.capacity) : (rb.push xs).data = rb.data ++ xs := by
  simp only [RingBuffer.push, RingBuffer.size] at *
  have : (rb.data ++ xs).length - rb.capacity = 0 := by
    simp only [List.length_append]; omega
  rw [this, List.drop_zero]

theorem step_latency (cfg : Config) (s : HARDAudioProcessor) (e : Event) :
    (step cfg s e).1.latencySamples = s.latencySamples := by
  cases e <;> rfl

theorem run_latency (cfg : Config) (s : HARDAudioProcessor) (es : List Event) :
    (run cfg s es).latencySamples = s.latencySamples := by
  induction es generalizing s with
  | nil => rfl
  | cons e es ih => rw [run, ih, step_latency]

/-! ## Reported latency -/

/-- C2: the constructor sets the reported latency to
`OUTPUT_DELAY_SAMPLES - OUTPUT_DELAY_BIAS_SAMPLES`; `prepareToPlay` and `processBlock`
leave it as it is for every argument, so it keeps that value through every sequence of
events; with DELAY = 2048 and BIAS = 128 it is 1920. -/
theorem reported_latency_constant (cfg : Config) (m s : HARDAudioProcessor)
    (sampleRate : ℚ) (samplesPerBlock : Int) (buffer : List HostSample) (busy : Bool)
    (es : List Event) :
    (construct cfg m).latencySamples
        = (cfg.OUTPUT_DELAY_SAMPLES : Int) - (cfg.OUTPUT_DELAY_BIAS_SAMPLES : Int) ∧
      (prepareToPlay cfg s sampleRate samplesPerBlock).latencySamples = s.latencySamples ∧
      (processBlock cfg s buffer busy).state.latencySamples = s.latencySamples ∧
      (run cfg (construct cfg m) es).latencySamples
        = (cfg.OUTPUT_DELAY_SAMPLES : Int) - (cfg.OUTPUT_DELAY_BIAS_SAMPLES : Int) ∧
      (run specConfig (construct specConfig m) es).latencySamples = 1920 := by
  refine ⟨rfl, rfl, rfl, ?_, ?_⟩
  · rw [run_latency]; rfl
  · rw [run_latency]; simp [construct, specConfig]

/-! ## Parameter linking -/

/-- C4: the harmony and rhythm values after one `processBlock` call are the reference
function of (sync, harmony, rhythm, previous harmony, previous rhythm), and at most one
of the two parameters differs from its value before the call. -/
theorem linking_matches_reference (cfg : Config) (s : HARDAudioProcessor)
    (buffer : List HostSample) (busy : Bool) :
    ((processBlock cfg s buffer busy).state.harmonyParameter,
      (processBlock cfg s buffer busy).state.rhythmParameter)
        = linkReference s.syncParameter s.harmonyParameter s.rhythmParameter
            s.preHarmonyParam s.preRhythmParam ∧
      ((processBlock cfg s buffer busy).state.harmonyParameter = s.harmonyParameter ∨
        (processBlock cfg s buffer busy).state.rhythmParameter = s.rhythmParameter) := by
  simp only [processBlock, linkReference, decide_eq_true_eq]
  split_ifs <;> first | (exfalso; linarith [‹_ ∧ _›.1]) | simp_all

/-! ## Output delivery -/

theorem map_main_zipWith (b : List HostSample) (w : List Frame) (h : w.length ≤ b.length) :
    (List.zipWith (fun (x : HostSample) (f : Frame) => { x with main := f }) b w).map
      HostSample.main = w := by
  induction b generalizing w with
  | nil =>
      cases w with
      | nil => rfl
      | cons f w => simp at h
  | cons x b ih =>
      cases w with
      | nil => rfl
      | cons f w =>
          simp only [List.length_cons, Nat.add_le_add_iff_right] at h
          simp [ih w h]

theorem RingBuffer.readDataToBuffer_of_le (rb : RingBuffer) (n : Nat) (h : n ≤ rb.size) :
    rb.readDataToBuffer 0 n = (some (rb.data.take n), rb.consume n) := by
  have : ¬ rb.size < n := by omega
  simp [RingBuffer.readDataToBuffer, RingBuffer.read, this]

theorem processBlock_out_underrun (cfg : Config) (s : HARDAudioProcessor)
    (buffer : List HostSample) (busy : Bool)
    (h : s.fifoBufferOutDNN.size < buffer.length) :
    (processBlock cfg s buffer busy).buffer
        = List.replicate buffer.length ⟨zeroFrame, zeroFrame⟩ ∧
      (processBlock cfg s buffer busy).state.fifoBufferOutDNN = s.fifoBufferOutDNN := by
  have hn : ¬ buffer.length ≤ s.fifoBufferOutDNN.size := by omega
  simp only [processBlock, RingBuffer.getBufferSize, ge_iff_le, hn, decide_False,
    Bool.false_eq_true, if_false, and_true]
  exact List.map_const _ _

theorem processBlock_out_enough (cfg : Config) (s : HARDAudioProcessor)
    (buffer : List HostSample) (busy : Bool)
    (h : buffer.length ≤ s.fifoBufferOutDNN.size) :
    (processBlock cfg s buffer busy).buffer
        = List.zipWith (fun (x : HostSample) (f : Frame) => { x with main := f }) buffer
            (s.fifoBufferOutDNN.data.take buffer.length) ∧
      (processBlock cfg s buffer busy).state.fifoBufferOutDNN
        = s.fifoBufferOutDNN.consume buffer.length := by
  simp only [processBlock, RingBuffer.getBufferSize, ge_iff_le, h, decide_True, if_true,
    RingBuffer.readDataToBuffer_of_le _ _ h, and_self]

/-- C5: in every `processBlock` call with block size N: when the output ring buffer
holds fewer than N samples, the host buffer is N all-zero samples on every channel and
the output ring buffer is unchanged; when it holds at least N, the N oldest samples are
delivered in FIFO order to the main bus, removed from the ring buffer, and its size
drops by N. -/
theorem underrun_fallback (cfg : Config) (s : HARDAudioProcessor)
    (buffer : List HostSample) (busy : Bool) :
    if s.fifoBufferOutDNN.getBufferSize < buffer.length then
      (processBlock cfg s buffer busy).buffer
          = List.replicate buffer.length ⟨zeroFrame, zeroFrame⟩ ∧
        (processBlock cfg s buffer busy).state.fifoBufferOutDNN = s.fifoBufferOutDNN
    else
      (processBlock cfg s buffer busy).buffer.length = buffer.length ∧
        (processBlock cfg s buffer busy).buffer.map HostSample.main
          = s.fifoBufferOutDNN.data.take buffer.length ∧
        (processBlock cfg s buffer busy).state.fifoBufferOutDNN.data
          = s.fifoBufferOutDNN.data.drop buffer.length ∧
        (processBlock cfg s buffer busy).state.fifoBufferOutDNN.getBufferSize + buffer.length
          = s.fifoBufferOutDNN.getBufferSize := by
  split_ifs with h
  · exact processBlock_out_underrun cfg s buffer busy h
  · have hle : buffer.length ≤ s.fifoBufferOutDNN.size := by
      simp only [RingBuffer.getBufferSize] at h; omega
    obtain ⟨hb, hs⟩ := processBlock_out_enough cfg s buffer busy hle
    have hlen : (s.fifoBufferOutDNN.data.take buffer.length).length = buffer.length := by
      simp only [List.length_take, RingBuffer.size] at *; omega
    rw [hb, hs]
    refine ⟨?_, ?_, rfl, ?_⟩
    · simp only [List.length_zipWith, hlen, min_self]
    · exact map_main_zipWith _ _ (by omega)
    · simp only [RingBuffer.getBufferSize, RingBuffer.size, RingBuffer.consume,
        List.length_drop] at *
      omega

/-! ## Inference trigger -/

theorem processBlock_fire (cfg : Config) (s : HARDAudioProcessor)
    (buffer : List HostSample) (busy : Bool) (h : triggerCondition cfg s buffer busy) :
    requests (processBlock cfg s buffer busy).trace = [builtRequest cfg s buffer busy] ∧
      (processBlock cfg s buffer busy).state.numNewInputSamples
        = s.numNewInputSamples + buffer.length - cfg.DNN_INPUT_SAMPLES ∧
      (processBlock cfg s buffer busy).state.fifoBufferIn1
        = ((s.fifoBufferIn1.pushData (buffer.map HostSample.main)).readData
            (cfg.DNN_INPUT_SAMPLES + cfg.DNN_INPUT_CACHE_SAMPLES) cfg.DNN_INPUT_SAMPLES).2 ∧
      (processBlock cfg s buffer busy).state.fifoBufferIn2
        = ((s.fifoBufferIn2.pushData (buffer.map HostSample.side)).readData
            (cfg.DNN_INPUT_SAMPLES + cfg.DNN_INPUT_CACHE_SAMPLES) cfg.DNN_INPUT_SAMPLES).2 ∧
      (processBlock cfg s buffer busy).state.dnnInputData1
        = ((s.fifoBufferIn1.pushData (buffer.map HostSample.main)).readData
            (cfg.DNN_INPUT_SAMPLES + cfg.DNN_INPUT_CACHE_SAMPLES)
              cfg.DNN_INPUT_SAMPLES).1.getD s.dnnInputData1 ∧
      (processBlock cfg s buffer busy).state.dnnInputData2
        = ((s.fifoBufferIn2.pushData (buffer.map HostSample.side)).readData
            (cfg.DNN_INPUT_SAMPLES + cfg.DNN_INPUT_CACHE_SAMPLES)
              cfg.DNN_INPUT_SAMPLES).1.getD s.dnnInputData2 ∧
      accesses (processBlock cfg s buffer busy).trace
        = [(.fifoBufferIn1, .pushData), (.fifoBufferIn2, .pushData),
            (.fifoBufferIn1, .getBufferSize), (.fifoBufferIn1, .getBufferSize),
            (.fifoBufferIn1, .readData), (.fifoBufferIn2, .readData),
            (.fifoBufferOutDNN, .getBufferSize)] ++
          (if s.fifoBufferOutDNN.getBufferSize ≥ buffer.length
            then [(.fifoBufferOutDNN, .readData)] else []) := by
  obtain ⟨h1, h2, h3⟩ := h
  subst h3
  simp only [ge_iff_le] at h1 h2
  refine ⟨?_, ?_, ?_, ?_, ?_, ?_, ?_⟩ <;>
    simp only [builtRequest, processBlock, ge_iff_le, h1, h2, decide_True, Bool.not_false,
      Bool.and_self, if_true, decide_eq_true_eq] <;>
    split_ifs <;> simp [requests, accesses]

theorem processBlock_no_fire (cfg : Config) (s : HARDAudioProcessor)
    (buffer : List HostSample) (busy : Bool) (h : ¬ triggerCondition cfg s buffer busy) :
    requests (processBlock cfg s buffer busy).trace = [] ∧
      (processBlock cfg s buffer busy).state.numNewInputSamples
        = s.numNewInputSamples + buffer.length ∧
      (processBlock cfg s buffer busy).state.fifoBufferIn1
        = s.fifoBufferIn1.pushData (buffer.map HostSample.main) ∧
      (processBlock cfg s buffer busy).state.fifoBufferIn2
        = s.fifoBufferIn2.pushData (buffer.map HostSample.side) ∧
      (processBlock cfg s buffer busy).state.dnnInputData1 = s.dnnInputData1 ∧
      (processBlock cfg s buffer busy).state.dnnInputData2 = s.dnnInputData2 ∧
      (∀ b, (b, BufOp.readData) ∈ accesses (processBlock cfg s buffer busy).trace →
        b = .fifoBufferOutDNN) := by
  have hf : (decide (s.numNewInputSamples + buffer.length ≥ cfg.DNN_INPUT_SAMPLES) &&
      decide ((s.fifoBufferIn1.pushData (buffer.map HostSample.main)).getBufferSize
        ≥ cfg.DNN_INPUT_SAMPLES + cfg.DNN_INPUT_CACHE_SAMPLES) && !busy) = false := by
    by_contra hc
    apply h
    simp only [Bool.not_eq_false, Bool.and_eq_true, decide_eq_true_eq,
      Bool.not_eq_true_eq_eq_false, Bool.not_eq_eq_eq_not, Bool.not_false] at hc
    exact ⟨hc.1.1, hc.1.2, by simpa using hc.2⟩
  refine ⟨?_, ?_, ?_, ?_, ?_, ?_, ?_⟩ <;>
    simp only [processBlock, hf, Bool.false_eq_true, if_false, List.append_nil,
      decide_eq_true_eq] <;>
    split_ifs <;> simp [requests, accesses]

/-! ## The two input ring buffers move together -/

theorem RingBuffer.readData_of_le (rb : RingBuffer) (n p : Nat) (h : n ≤ rb.size) :
    rb.readData n p = (some (rb.data.take n), rb.consume p) := by
  have : ¬ rb.size < n := by omega
  simp [RingBuffer.readData, RingBuffer.read, this]

theorem RingBuffer.readData_some_length (rb : RingBuffer) (n p : Nat) (h : n ≤ rb.size) :
    ∃ w, (rb.readData n p).1 = some w ∧ w.length = n := by
  refine ⟨rb.data.take n, ?_, ?_⟩
  · rw [RingBuffer.readData_of_le rb n p h]
  · simp only [List.length_take, RingBuffer.size] at *; omega

theorem inputsAligned_push (s : HARDAudioProcessor) (buffer : List HostSample)
    (h : inputsAligned s) :
    (s.fifoBufferIn1.pushData (buffer.map HostSample.main)).capacity
        = (s.fifoBufferIn2.pushData (buffer.map HostSample.side)).capacity ∧
      (s.fifoBufferIn1.pushData (buffer.map HostSample.main)).size
        = (s.fifoBufferIn2.pushData (buffer.map HostSample.side)).size := by
  obtain ⟨hc, hs⟩ := h
  refine ⟨hc, ?_⟩
  simp only [RingBuffer.pushData, RingBuffer.size_push, List.length_map, hc, hs]

theorem inputsAligned_processBlock (cfg : Config) (s : HARDAudioProcessor)
    (buffer : List HostSample) (busy : Bool) (h : inputsAligned s) :
    inputsAligned (processBlock cfg s buffer busy).state := by
  obtain ⟨hc, hs⟩ := inputsAligned_push s buffer h
  by_cases hf : triggerCondition cfg s buffer busy
  · obtain ⟨_, _, h1, h2, _⟩ := processBlock_fire cfg s buffer busy hf
    have hle1 := hf.2.1
    simp only [RingBuffer.getBufferSize, ge_iff_le] at hle1
    have hle2 := hle1
    rw [hs] at hle2
    rw [inputsAligned, h1, h2, RingBuffer.readData_of_le _ _ _ hle1,
      RingBuffer.readData_of_le _ _ _ hle2]
    refine ⟨hc, ?_⟩
    simp only [RingBuffer.size, RingBuffer.consume, List.length_drop] at *
    omega
  · obtain ⟨_, _, h1, h2, _⟩ := processBlock_no_fire cfg s buffer busy hf
    rw [inputsAligned, h1, h2]
    exact ⟨hc, hs⟩

theorem inputsAligned_step (cfg : Config) (s : HARDAudioProcessor) (e : Event)
    (h : inputsAligned s) : inputsAligned (step cfg s e).1 := by
  cases e with
  | prepareToPlay sr n => exact ⟨h.1, rfl⟩
  | processBlock buffer busy => exact inputsAligned_processBlock cfg s buffer busy h
  | setParameters a b c d e => exact h
  | inferenceResult out => exact h

theorem inputsAligned_run (cfg : Config) (s : HARDAudioProcessor) (es : List Event)
    (h : inputsAligned s) : inputsAligned (run cfg s es) := by
  induction es generalizing s with
  | nil => exact h
  | cons e es ih => exact ih _ (inputsAligned_step cfg s e h)

theorem inputsAligned_of_reachable (cfg : Config) (s : HARDAudioProcessor)
    (h : Reachable cfg s) : inputsAligned s := by
  obtain ⟨m, es, hc, rfl⟩ := h
  exact inputsAligned_run cfg _ es ⟨hc, rfl⟩

/-- When the trigger fires on a state with aligned input buffers, both reads return the
window-plus-cache oldest samples of the freshly pushed buffers. -/
theorem fire_windows (cfg : Config) (s : HARDAudioProcessor) (buffer : List HostSample)
    (busy : Bool) (ha : inputsAligned s) (hf : triggerCondition cfg s buffer busy) :
    (processBlock cfg s buffer busy).state.dnnInputData1
        = (s.fifoBufferIn1.pushData (buffer.map HostSample.main)).data.take
            (cfg.DNN_INPUT_SAMPLES + cfg.DNN_INPUT_CACHE_SAMPLES) ∧
      (processBlock cfg s buffer busy).state.dnnInputData2
        = (s.fifoBufferIn2.pushData (buffer.map HostSample.side)).data.take
            (cfg.DNN_INPUT_SAMPLES + cfg.DNN_INPUT_CACHE_SAMPLES) ∧
      cfg.DNN_INPUT_SAMPLES + cfg.DNN_INPUT_CACHE_SAMPLES
        ≤ (s.fifoBufferIn1.pushData (buffer.map HostSample.main)).size ∧
      cfg.DNN_INPUT_SAMPLES + cfg.DNN_INPUT_CACHE_SAMPLES
        ≤ (s.fifoBufferIn2.pushData (buffer.map HostSample.side)).size := by
  obtain ⟨_, hs⟩ := inputsAligned_push s buffer ha
  obtain ⟨_, _, _, _, h1, h2, _⟩ := processBlock_fire cfg s buffer busy hf
  have hle1 := hf.2.1
  simp only [RingBuffer.getBufferSize, ge_iff_le] at hle1
  have hle2 := hle1
  rw [hs] at hle2
  rw [h1, h2, RingBuffer.readData_of_le _ _ _ hle1, RingBuffer.readData_of_le _ _ _ hle2]
  exact ⟨rfl, rfl, hle1, hle2⟩

/-- C6: in a `processBlock` call in which the executor reports busy, no request is
submitted, no input ring buffer is read (each is exactly the old buffer with the N new
samples pushed) and the counter is the old one plus N; for every answer of the executor
at most one request is submitted per call. -/
theorem backpressure (cfg : Config) (s : HARDAudioProcessor) (buffer : List HostSample)
    (busy : Bool) :
    (requests (processBlock cfg s buffer true).trace = [] ∧
      (Buf.fifoBufferIn1, BufOp.readData) ∉ accesses (processBlock cfg s buffer true).trace ∧
      (Buf.fifoBufferIn2, BufOp.readData) ∉ accesses (processBlock cfg s buffer true).trace ∧
      (processBlock cfg s buffer true).state.fifoBufferIn1
        = s.fifoBufferIn1.pushData (buffer.map HostSample.main) ∧
      (processBlock cfg s buffer true).state.fifoBufferIn2
        = s.fifoBufferIn2.pushData (buffer.map HostSample.side) ∧
      (processBlock cfg s buffer true).state.fifoBufferIn1.getBufferSize
        = min (s.fifoBufferIn1.getBufferSize + buffer.length) s.fifoBufferIn1.capacity ∧
      (processBlock cfg s buffer true).state.fifoBufferIn2.getBufferSize
        = min (s.fifoBufferIn2.getBufferSize + buffer.length) s.fifoBufferIn2.capacity ∧
      (processBlock cfg s buffer true).state.numNewInputSamples
        = s.numNewInputSamples + buffer.length) ∧
      (requests (processBlock cfg s buffer busy).trace).length ≤ 1 := by
  have hn : ¬ triggerCondition cfg s buffer true := fun h => by simpa using h.2.2
  obtain ⟨h1, h2, h3, h4, _, _, h7⟩ := processBlock_no_fire cfg s buffer true hn
  refine ⟨⟨h1, fun hm => by simpa using h7 _ hm, fun hm => by simpa using h7 _ hm, h3, h4,
    ?_, ?_, h2⟩, ?_⟩
  · rw [h3]
    simp [RingBuffer.getBufferSize, RingBuffer.pushData, RingBuffer.size_push]
  · rw [h4]
    simp [RingBuffer.getBufferSize, RingBuffer.pushData, RingBuffer.size_push]
  · by_cases hf : triggerCondition cfg s buffer busy
    · rw [(processBlock_fire cfg s buffer busy hf).1]; simp
    · rw [(processBlock_no_fire cfg s buffer busy hf).1]; simp

/-- C8: in every `processBlock` call on a reachable state, exactly one request is
submitted if and only if the trigger condition holds (counter after the increment at
least the window, input ring buffer 1 after the push at least window plus cache,
executor not busy), and never more than one.  When it fires, the request carries the
window-plus-cache oldest samples of each pushed input buffer and the rhythm, harmony and
sync values as they are after this call, and the counter ends at old + N - WINDOW;
otherwise nothing is submitted and the counter ends at old + N. -/
theorem inference_trigger (cfg : Config) (s : HARDAudioProcessor)
    (buffer : List HostSample) (busy : Bool) (hr : Reachable cfg s) :
    ((requests (processBlock cfg s buffer busy).trace).length = 1 ↔
        triggerCondition cfg s buffer busy) ∧
      (requests (processBlock cfg s buffer busy).trace).length ≤ 1 ∧
      (triggerCondition cfg s buffer busy →
        requests (processBlock cfg s buffer busy).trace
          = [⟨(s.fifoBufferIn1.pushData (buffer.map HostSample.main)).data.take
                (cfg.DNN_INPUT_SAMPLES + cfg.DNN_INPUT_CACHE_SAMPLES),
              (s.fifoBufferIn2.pushData (buffer.map HostSample.side)).data.take
                (cfg.DNN_INPUT_SAMPLES + cfg.DNN_INPUT_CACHE_SAMPLES),
              (processBlock cfg s buffer busy).state.rhythmParameter,
              (processBlock cfg s buffer busy).state.harmonyParameter,
              (processBlock cfg s buffer busy).state.syncParameter⟩] ∧
        ((s.fifoBufferIn1.pushData (buffer.map HostSample.main)).data.take
            (cfg.DNN_INPUT_SAMPLES + cfg.DNN_INPUT_CACHE_SAMPLES)).length
          = cfg.DNN_INPUT_SAMPLES + cfg.DNN_INPUT_CACHE_SAMPLES ∧
        ((s.fifoBufferIn2.pushData (buffer.map HostSample.side)).data.take
            (cfg.DNN_INPUT_SAMPLES + cfg.DNN_INPUT_CACHE_SAMPLES)).length
          = cfg.DNN_INPUT_SAMPLES + cfg.DNN_INPUT_CACHE_SAMPLES ∧
        cfg.DNN_INPUT_SAMPLES ≤ s.numNewInputSamples + buffer.length ∧
        (processBlock cfg s buffer busy).state.numNewInputSamples
          = s.numNewInputSamples + buffer.length - cfg.DNN_INPUT_SAMPLES) ∧
      (¬ triggerCondition cfg s buffer busy →
        requests (processBlock cfg s buffer busy).trace = [] ∧
        (processBlock cfg s buffer busy).state.numNewInputSamples
          = s.numNewInputSamples + buffer.length) := by
  have ha := inputsAligned_of_reachable cfg s hr
  have hfire : triggerCondition cfg s buffer busy →
      requests (processBlock cfg s buffer busy).trace
        = [⟨(s.fifoBufferIn1.pushData (buffer.map HostSample.main)).data.take
              (cfg.DNN_INPUT_SAMPLES + cfg.DNN_INPUT_CACHE_SAMPLES),
            (s.fifoBufferIn2.pushData (buffer.map HostSample.side)).data.take
              (cfg.DNN_INPUT_SAMPLES + cfg.DNN_INPUT_CACHE_SAMPLES),
            (processBlock cfg s buffer busy).state.rhythmParameter,
            (processBlock cfg s buffer busy).state.harmonyParameter,
            (processBlock cfg s buffer busy).state.syncParameter⟩] := by
    intro hf
    obtain ⟨w1, w2, _, _⟩ := fire_windows cfg s buffer busy ha hf
    rw [(processBlock_fire cfg s buffer busy hf).1, builtRequest, w1, w2]
    rfl
  refine ⟨⟨?_, ?_⟩, ?_, ?_, ?_⟩
  · intro h1
    by_contra hf
    rw [(processBlock_no_fire cfg s buffer busy hf).1] at h1
    simp at h1
  · intro hf
    rw [hfire hf]; rfl
  · by_cases hf : triggerCondition cfg s buffer busy
    · rw [hfire hf]; simp
    · rw [(processBlock_no_fire cfg s buffer busy hf).1]; simp
  · intro hf
    obtain ⟨_, _, l1, l2⟩ := fire_windows cfg s buffer busy ha hf
    refine ⟨hfire hf, ?_, ?_, hf.1, (processBlock_fire cfg s buffer busy hf).2.1⟩
    · simp only [List.length_take, RingBuffer.size] at *; omega
    · simp only [List.length_take, RingBuffer.size] at *; omega
  · intro hf
    exact ⟨(processBlock_no_fire cfg s buffer busy hf).1,
      (processBlock_no_fire cfg s buffer busy hf).2.1⟩

/-- C8 at a concrete input: window 2, cache 1, a first block of three samples on a
freshly prepared processor with an idle executor fires exactly one request carrying the
three pushed samples of each input, and the counter ends at 0 + 3 - 2 = 1. -/
theorem inference_trigger_witness :
    Reachable smallConfig smallStart ∧
      triggerCondition smallConfig smallStart smallBlock false ∧
      (requests (processBlock smallConfig smallStart smallBlock false).trace).length = 1 ∧
      (requests (processBlock smallConfig smallStart smallBlock false).trace).map
          InferenceRequest.input1 = [[(1, 2), (5, 6), (9, 10)]] ∧
      (requests (processBlock smallConfig smallStart smallBlock false).trace).map
          InferenceRequest.input2 = [[(3, 4), (7, 8), (11, 12)]] ∧
      (processBlock smallConfig smallStart smallBlock false).state.numNewInputSamples = 1 :=
  ⟨⟨blankMembers 8, [.prepareToPlay 48000 3], rfl, rfl⟩,
    by decide,
    (inference_trigger smallConfig smallStart smallBlock false
      ⟨blankMembers 8, [.prepareToPlay 48000 3], rfl, rfl⟩).1.2 (by decide),
    (congrArg (List.map InferenceRequest.input1)
      ((inference_trigger smallConfig smallStart smallBlock false
        ⟨blankMembers 8, [.prepareToPlay 48000 3], rfl, rfl⟩).2.2.1 (by decide)).1).trans
      (by decide),
    (congrArg (List.map InferenceRequest.input2)
      ((inference_trigger smallConfig smallStart smallBlock false
        ⟨blankMembers 8, [.prepareToPlay 48000 3], rfl, rfl⟩).2.2.1 (by decide)).1).trans
      (by decide),
    ((inference_trigger smallConfig smallStart smallBlock false
      ⟨blankMembers 8, [.prepareToPlay 48000 3], rfl, rfl⟩).2.2.1 (by decide)).2.2.2.2.trans
      (by decide)⟩

/-- C10: when the two input ring buffers have the same capacity, they hold the same
number of samples after the constructor, after `prepareToPlay` and after every sequence
of events (so after every `processBlock` call); and whenever the trigger branch is
entered in such a state, buffer 1 and buffer 2 both hold at least window plus cache
samples, so both reads return exactly window plus cache samples. -/
theorem input_buffers_aligned (cfg : Config) (m : HARDAudioProcessor) (es : List Event)
    (sampleRate : ℚ) (samplesPerBlock : Int) (buffer : List HostSample) (busy : Bool)
    (hcap : m.fifoBufferIn1.capacity = m.fifoBufferIn2.capacity) :
    (construct cfg m).fifoBufferIn1.getBufferSize
        = (construct cfg m).fifoBufferIn2.getBufferSize ∧
      (prepareToPlay cfg (run cfg (construct cfg m) es) sampleRate
          samplesPerBlock).fifoBufferIn1.getBufferSize
        = (prepareToPlay cfg (run cfg (construct cfg m) es) sampleRate
            samplesPerBlock).fifoBufferIn2.getBufferSize ∧
      (run cfg (construct cfg m) es).fifoBufferIn1.getBufferSize
        = (run cfg (construct cfg m) es).fifoBufferIn2.getBufferSize ∧
      (processBlock cfg (run cfg (construct cfg m) es) buffer busy).state.fifoBufferIn1.getBufferSize
        = (processBlock cfg (run cfg (construct cfg m) es) buffer
            busy).state.fifoBufferIn2.getBufferSize ∧
      (triggerCondition cfg (run cfg (construct cfg m) es) buffer busy →
        cfg.DNN_INPUT_SAMPLES + cfg.DNN_INPUT_CACHE_SAMPLES
          ≤ ((run cfg (construct cfg m) es).fifoBufferIn1.pushData
              (buffer.map HostSample.main)).getBufferSize ∧
        cfg.DNN_INPUT_SAMPLES + cfg.DNN_INPUT_CACHE_SAMPLES
          ≤ ((run cfg (construct cfg m) es).fifoBufferIn2.pushData
              (buffer.map HostSample.side)).getBufferSize ∧
        (∃ w1, (((run cfg (construct cfg m) es).fifoBufferIn1.pushData
              (buffer.map HostSample.main)).readData
                (cfg.DNN_INPUT_SAMPLES + cfg.DNN_INPUT_CACHE_SAMPLES)
                cfg.DNN_INPUT_SAMPLES).1 = some w1 ∧
            w1.length = cfg.DNN_INPUT_SAMPLES + cfg.DNN_INPUT_CACHE_SAMPLES) ∧
        (∃ w2, (((run cfg (construct cfg m) es).fifoBufferIn2.pushData
              (buffer.map HostSample.side)).readData
                (cfg.DNN_INPUT_SAMPLES + cfg.DNN_INPUT_CACHE_SAMPLES)
                cfg.DNN_INPUT_SAMPLES).1 = some w2 ∧
            w2.length = cfg.DNN_INPUT_SAMPLES + cfg.DNN_INPUT_CACHE_SAMPLES)) := by
  have hr : Reachable cfg (run cfg (construct cfg m) es) := ⟨m, es, hcap, rfl⟩
  have ha := inputsAligned_of_reachable cfg _ hr
  refine ⟨rfl, rfl, ha.2, (inputsAligned_processBlock cfg _ buffer busy ha).2, ?_⟩
  intro hf
  obtain ⟨_, _, l1, l2⟩ := fire_windows cfg _ buffer busy ha hf
  exact ⟨l1, l2, RingBuffer.readData_some_length _ _ _ l1,
    RingBuffer.readData_some_length _ _ _ l2⟩

/-- C10 at a concrete input: capacity 8 for both input buffers, a busy callback followed
by an idle one; the sizes agree afterwards, and the next callback enters the trigger
branch with both buffers holding at least window plus cache samples. -/
theorem input_buffers_aligned_witness :
    (blankMembers 8).fifoBufferIn1.capacity = (blankMembers 8).fifoBufferIn2.capacity ∧
      (run smallConfig (construct smallConfig (blankMembers 8))
          [.prepareToPlay 48000 3, .processBlock smallBlock true,
            .processBlock smallBlock false]).fifoBufferIn1.getBufferSize
        = (run smallConfig (construct smallConfig (blankMembers 8))
          [.prepareToPlay 48000 3, .processBlock smallBlock true,
            .processBlock smallBlock false]).fifoBufferIn2.getBufferSize ∧
      triggerCondition smallConfig
        (run smallConfig (construct smallConfig (blankMembers 8))
          [.prepareToPlay 48000 3, .processBlock smallBlock true,
            .processBlock smallBlock false]) smallBlock false ∧
      smallConfig.DNN_INPUT_SAMPLES + smallConfig.DNN_INPUT_CACHE_SAMPLES
        ≤ ((run smallConfig (construct smallConfig (blankMembers 8))
            [.prepareToPlay 48000 3, .processBlock smallBlock true,
              .processBlock smallBlock false]).fifoBufferIn2.pushData
            (smallBlock.map HostSample.side)).getBufferSize :=
  ⟨rfl,
    (input_buffers_aligned smallConfig (blankMembers 8)
      [.prepareToPlay 48000 3, .processBlock smallBlock true, .processBlock smallBlock false]
      48000 3 smallBlock false rfl).2.2.1,
    by decide,
    ((input_buffers_aligned smallConfig (blankMembers 8)
      [.prepareToPlay 48000 3, .processBlock smallBlock true, .processBlock smallBlock false]
      48000 3 smallBlock false rfl).2.2.2.2 (by decide)).2.1⟩

/-! ## Lock discipline -/

/-- C7, the statement as claimed fails: in a call in which the counter reaches the
window, `getBufferSize` of `fifoBufferIn1` is evaluated in the trigger condition while
the lock is not held. -/
theorem lock_discipline_counterexample :
    ¬ (unlockedAccesses false (processBlock smallConfig smallStart smallBlock false).trace
        = []) := by
  decide

/-- C7, amended: in every `processBlock` call all `pushData` and `readData` accesses and
all accesses to `fifoBufferOutDNN` are made while the lock is held; the only ring-buffer
access made without the lock is the `getBufferSize` of `fifoBufferIn1` in the trigger
condition, which is evaluated exactly when the counter, after the increment, has
reached the window. -/
theorem lock_discipline_amended (cfg : Config) (s : HARDAudioProcessor)
    (buffer : List HostSample) (busy : Bool) :
    unlockedAccesses false (processBlock cfg s buffer busy).trace
      = if s.numNewInputSamples + buffer.length ≥ cfg.DNN_INPUT_SAMPLES
          then [(Buf.fifoBufferIn1, BufOp.getBufferSize)] else [] := by
  simp only [processBlock, ge_iff_le, decide_eq_true_eq]
  by_cases h1 : cfg.DNN_INPUT_SAMPLES ≤ s.numNewInputSamples + buffer.length <;>
    by_cases h2 : cfg.DNN_INPUT_SAMPLES + cfg.DNN_INPUT_CACHE_SAMPLES
        ≤ (s.fifoBufferIn1.pushData (buffer.map HostSample.main)).getBufferSize <;>
    by_cases h3 : buffer.length ≤ s.fifoBufferOutDNN.getBufferSize <;>
    cases busy <;>
    simp [h1, h2, h3, unlockedAccesses]

/-! ## Edge detection across callbacks -/

theorem processBlock_pre (cfg : Config) (s : HARDAudioProcessor) (buffer : List HostSample)
    (busy : Bool) :
    (processBlock cfg s buffer busy).state.preHarmonyParam
        = (processBlock cfg s buffer busy).state.harmonyParameter ∧
      (processBlock cfg s buffer busy).state.preRhythmParam
        = (processBlock cfg s buffer busy).state.rhythmParameter ∧
      (processBlock cfg s buffer busy).state.syncParameter = s.syncParameter :=
  ⟨rfl, rfl, rfl⟩

theorem processBlock_link (cfg : Config) (s : HARDAudioProcessor) (buffer : List HostSample)
    (busy : Bool) :
    (processBlock cfg s buffer busy).state.harmonyParameter
        = (linkReference s.syncParameter s.harmonyParameter s.rhythmParameter
            s.preHarmonyParam s.preRhythmParam).1 ∧
      (processBlock cfg s buffer busy).state.rhythmParameter
        = (linkReference s.syncParameter s.harmonyParameter s.rhythmParameter
            s.preHarmonyParam s.preRhythmParam).2 := by
  simp only [processBlock, linkReference, decide_eq_true_eq]
  split_ifs <;> first | (exfalso; linarith [‹_ ∧ _›.1]) | simp_all

/-- C9: at the end of every `processBlock` call the stored previous values equal the
current harmony and rhythm.  Hence a second call with no external change in between
changes neither parameter; and with sync enabled, after a call, an external change of
harmony alone, or of rhythm alone, to a new value v makes both harmony and rhythm equal
v after the next call. -/
theorem edge_detection (cfg : Config) (s : HARDAudioProcessor) (b1 b2 : List HostSample)
    (busy1 busy2 : Bool) (v : ℚ) :
    ((processBlock cfg s b1 busy1).state.preHarmonyParam
        = (processBlock cfg s b1 busy1).state.harmonyParameter ∧
      (processBlock cfg s b1 busy1).state.preRhythmParam
        = (processBlock cfg s b1 busy1).state.rhythmParameter) ∧
    ((processBlock cfg (processBlock cfg s b1 busy1).state b2 busy2).state.harmonyParameter
        = (processBlock cfg s b1 busy1).state.harmonyParameter ∧
      (processBlock cfg (processBlock cfg s b1 busy1).state b2 busy2).state.rhythmParameter
        = (processBlock cfg s b1 busy1).state.rhythmParameter) ∧
    (s.syncParameter > 1 / 2 →
      v ≠ (processBlock cfg s b1 busy1).state.harmonyParameter →
      (processBlock cfg (setHarmony (processBlock cfg s b1 busy1).state v) b2
          busy2).state.harmonyParameter = v ∧
        (processBlock cfg (setHarmony (processBlock cfg s b1 busy1).state v) b2
          busy2).state.rhythmParameter = v) ∧
    (s.syncParameter > 1 / 2 →
      v ≠ (processBlock cfg s b1 busy1).state.rhythmParameter →
      (processBlock cfg (setRhythm (processBlock cfg s b1 busy1).state v) b2
          busy2).state.harmonyParameter = v ∧
        (processBlock cfg (setRhythm (processBlock cfg s b1 busy1).state v) b2
          busy2).state.rhythmParameter = v) := by
  obtain ⟨ph, pr, ps⟩ := processBlock_pre cfg s b1 busy1
  refine ⟨⟨ph, pr⟩, ?_, ?_, ?_⟩
  · obtain ⟨h1, h2⟩ := processBlock_link cfg (processBlock cfg s b1 busy1).state b2 busy2
    rw [h1, h2, ph, pr]
    simp [linkReference]
  · intro hs hv
    obtain ⟨h1, h2⟩ :=
      processBlock_link cfg (setHarmony (processBlock cfg s b1 busy1).state v) b2 busy2
    rw [h1, h2]
    simp only [setHarmony, setParameters, ps, ph, pr]
    simp only [one_div, gt_iff_lt] at hs
    simp [linkReference, hs, hv]
  · intro hs hv
    obtain ⟨h1, h2⟩ :=
      processBlock_link cfg (setRhythm (processBlock cfg s b1 busy1).state v) b2 busy2
    rw [h1, h2]
    simp only [setRhythm, setParameters, ps, ph, pr]
    simp only [one_div, gt_iff_lt] at hs
    simp [linkReference, hs, hv]

/-- C9 at a concrete input (sync on): after a first call, harmony is set to 0.7 and the
next call gives rhythm = harmony = 0.7; then rhythm is set to 0.3 and the next call gives
harmony = rhythm = 0.3. -/
theorem edge_detection_witness :
    (syncStart.syncParameter > 1 / 2 ∧
      (7 / 10 : ℚ) ≠ (processBlock smallConfig syncStart smallBlock false).state.harmonyParameter) ∧
    ((processBlock smallConfig
        (setHarmony (processBlock smallConfig syncStart smallBlock false).state (7 / 10))
        smallBlock true).state.harmonyParameter = 7 / 10 ∧
      (processBlock smallConfig
        (setHarmony (processBlock smallConfig syncStart smallBlock false).state (7 / 10))
        smallBlock true).state.rhythmParameter = 7 / 10) ∧
    ((processBlock smallConfig
        (setRhythm (processBlock smallConfig
          (setHarmony (processBlock smallConfig syncStart smallBlock false).state (7 / 10))
          smallBlock true).state (3 / 10)) smallBlock false).state.harmonyParameter = 3 / 10 ∧
      (processBlock smallConfig
        (setRhythm (processBlock smallConfig
          (setHarmony (processBlock smallConfig syncStart smallBlock false).state (7 / 10))
          smallBlock true).state (3 / 10)) smallBlock false).state.rhythmParameter = 3 / 10) :=
  ⟨⟨by norm_num [syncStart, setParameters],
      by norm_num [processBlock, syncStart, setParameters, construct, blankMembers]⟩,
    (edge_detection smallConfig syncStart smallBlock smallBlock false true (7 / 10)).2.2.1
      (by norm_num [syncStart, setParameters])
      (by norm_num [processBlock, syncStart, setParameters, construct, blankMembers]),
    (edge_detection smallConfig
      (setHarmony (processBlock smallConfig syncStart smallBlock false).state (7 / 10))
      smallBlock smallBlock true false (3 / 10)).2.2.2
      (by norm_num [processBlock, setHarmony, syncStart, setParameters])
      (by norm_num [processBlock, setHarmony, syncStart, setParameters, construct,
        blankMembers])⟩

/-! ## Pre-seeded silence -/

theorem prepareToPlay_out (cfg : Config) (s : HARDAudioProcessor) (sampleRate : ℚ)
    (samplesPerBlock : Int) :
    (prepareToPlay cfg s sampleRate samplesPerBlock).fifoBufferOutDNN.data
        = List.replicate (min cfg.OUTPUT_DELAY_SAMPLES s.fifoBufferOutDNN.capacity) zeroFrame ∧
      (prepareToPlay cfg s sampleRate samplesPerBlock).fifoBufferOutDNN.capacity
        = s.fifoBufferOutDNN.capacity := by
  refine ⟨?_, rfl⟩
  simp only [prepareToPlay, RingBuffer.fillZeros, RingBuffer.clearBuffer, RingBuffer.clear,
    RingBuffer.push, List.nil_append, List.length_replicate, List.drop_replicate]
  congr 1
  omega

/-- C1, the statement as claimed fails: with DELAY = 2048 and BIAS = 128 the output
ring buffer holds 2048 samples after `prepareToPlay`, not the 1920 of the reported
latency. -/
theorem preseed_counterexample :
    (prepareToPlay specConfig (construct specConfig (blankMembers 4096)) 48000
        1024).fifoBufferOutDNN.getBufferSize = 2048 ∧
      ¬ (((prepareToPlay specConfig (construct specConfig (blankMembers 4096)) 48000
            1024).fifoBufferOutDNN.getBufferSize : Int)
          = (specConfig.OUTPUT_DELAY_SAMPLES : Int) - (specConfig.OUTPUT_DELAY_BIAS_SAMPLES : Int)) ∧
      (construct specConfig (blankMembers 4096)).latencySamples = 1920 := by
  have h : (prepareToPlay specConfig (construct specConfig (blankMembers 4096)) 48000
      1024).fifoBufferOutDNN.getBufferSize = 2048 := by
    rw [RingBuffer.getBufferSize, RingBuffer.size, (prepareToPlay_out _ _ _ _).1,
      List.length_replicate]
    decide
  refine ⟨h, ?_, ?_⟩
  · rw [h]; simp [specConfig]
  · simp [construct, specConfig]

/-- C1, amended: after `prepareToPlay`, from any prior state whose output ring buffer
has room for them, the output ring buffer holds exactly `OUTPUT_DELAY_SAMPLES` samples,
all of them zero; that is `OUTPUT_DELAY_BIAS_SAMPLES` more than the latency the
constructor reports. -/
theorem preseed_amended (cfg : Config) (m s : HARDAudioProcessor) (sampleRate : ℚ)
    (samplesPerBlock : Int) (hcap : cfg.OUTPUT_DELAY_SAMPLES ≤ s.fifoBufferOutDNN.capacity) :
    (prepareToPlay cfg s sampleRate samplesPerBlock).fifoBufferOutDNN.data
        = List.replicate cfg.OUTPUT_DELAY_SAMPLES zeroFrame ∧
      (prepareToPlay cfg s sampleRate samplesPerBlock).fifoBufferOutDNN.getBufferSize
        = cfg.OUTPUT_DELAY_SAMPLES ∧
      (((prepareToPlay cfg s sampleRate samplesPerBlock).fifoBufferOutDNN.getBufferSize : Nat)
          : Int)
        = (construct cfg m).latencySamples + (cfg.OUTPUT_DELAY_BIAS_SAMPLES : Int) := by
  have hd : (prepareToPlay cfg s sampleRate samplesPerBlock).fifoBufferOutDNN.data
      = List.replicate cfg.OUTPUT_DELAY_SAMPLES zeroFrame := by
    rw [(prepareToPlay_out cfg s sampleRate samplesPerBlock).1, Nat.min_eq_left hcap]
  have hsz : (prepareToPlay cfg s sampleRate samplesPerBlock).fifoBufferOutDNN.getBufferSize
      = cfg.OUTPUT_DELAY_SAMPLES := by
    rw [RingBuffer.getBufferSize, RingBuffer.size, hd, List.length_replicate]
  refine ⟨hd, hsz, ?_⟩
  rw [hsz]
  simp [construct]

/-- C1 amended, at the constants of the end-to-end scenario: 2048 zero samples are
pre-seeded. -/
theorem preseed_amended_witness :
    specConfig.OUTPUT_DELAY_SAMPLES ≤ (construct specConfig (blankMembers 4096)).fifoBufferOutDNN.capacity ∧
      ((prepareToPlay specConfig (construct specConfig (blankMembers 4096)) 48000
          1024).fifoBufferOutDNN.data
          = List.replicate specConfig.OUTPUT_DELAY_SAMPLES zeroFrame ∧
        (prepareToPlay specConfig (construct specConfig (blankMembers 4096)) 48000
          1024).fifoBufferOutDNN.getBufferSize = specConfig.OUTPUT_DELAY_SAMPLES ∧
        (((prepareToPlay specConfig (construct specConfig (blankMembers 4096)) 48000
          1024).fifoBufferOutDNN.getBufferSize : Nat) : Int)
          = (construct specConfig (blankMembers 4096)).latencySamples
            + (specConfig.OUTPUT_DELAY_BIAS_SAMPLES : Int)) :=
  ⟨by decide,
    preseed_amended specConfig (blankMembers 4096) (construct specConfig (blankMembers 4096))
      48000 1024 (by decide)⟩

/-! ## Leading silence of the host output -/

theorem mem_take_drop_sub {f : Frame} {l : List Frame} {j n : Nat}
    (h : f ∈ (l.drop n).take (j - n)) : f ∈ l.take j := by
  rw [← List.drop_take] at h
  exact List.mem_of_mem_drop h

theorem processBlock_buffer_length (cfg : Config) (s : HARDAudioProcessor)
    (buffer : List HostSample) (busy : Bool) :
    (processBlock cfg s buffer busy).buffer.length = buffer.length := by
  by_cases h : s.fifoBufferOutDNN.size < buffer.length
  · rw [(processBlock_out_underrun cfg s buffer busy h).1, List.length_replicate]
  · have hle : buffer.length ≤ s.fifoBufferOutDNN.size := by omega
    rw [(processBlock_out_enough cfg s buffer busy hle).1]
    simp only [List.length_zipWith, List.length_take, RingBuffer.size] at *
    omega

theorem hostOutput_length (cfg : Config) (s : HARDAudioProcessor) (es : List Event) :
    (hostOutput cfg s es).length = blockSamples es := by
  induction es generalizing s with
  | nil => rfl
  | cons e es ih =>
      cases e with
      | prepareToPlay sr n => simp [hostOutput, blockSamples, step, ih]
      | processBlock buffer busy =>
          simp [hostOutput, blockSamples, step, ih, processBlock_buffer_length]
      | setParameters a b c d e => simp [hostOutput, blockSamples, step, ih]
      | inferenceResult out => simp [hostOutput, blockSamples, step, ih]

theorem silence_aux (cfg : Config) (es : List Event) :
    ∀ (s : HARDAudioProcessor) (j : Nat), Lead j s.fifoBufferOutDNN.data →
      (∀ e ∈ es, e.isStream = true) → noOverflow cfg s es = true →
      ∀ f ∈ (hostOutput cfg s es).take j, f = zeroFrame := by
  induction es with
  | nil =>
      intro s j _ _ _ f hf
      simp [hostOutput] at hf
  | cons e es ih =>
      intro s j hl hst hno f hf
      have hst2 : ∀ e ∈ es, e.isStream = true := fun e he => hst e (List.mem_cons_of_mem _ he)
      cases e with
      | prepareToPlay sr n =>
          have := hst _ (List.mem_cons_self _ _)
          simp [Event.isStream] at this
      | setParameters a b c d e =>
          exact ih (setParameters s a b c d e) j hl hst2 hno f hf
      | inferenceResult out =>
          simp only [noOverflow, Bool.and_eq_true, decide_eq_true_eq] at hno
          obtain ⟨hfit, hno2⟩ := hno
          refine ih _ j ?_ hst2 hno2 f hf
          have hd : (step cfg s (.inferenceResult out)).1.fifoBufferOutDNN.data
              = s.fifoBufferOutDNN.data ++ out :=
            RingBuffer.push_of_fits _ _ hfit
          rw [hd]
          refine ⟨by rw [List.length_append]; exact Nat.le_trans hl.1 (Nat.le_add_right _ _), ?_⟩
          intro g hg
          rw [List.take_append_eq_append_take, Nat.sub_eq_zero_of_le hl.1, List.take_zero,
            List.append_nil] at hg
          exact hl.2 g hg
      | processBlock buffer busy =>
          have hno2 : noOverflow cfg (processBlock cfg s buffer busy).state es = true := hno
          have hfo : f ∈ ((processBlock cfg s buffer busy).buffer.map HostSample.main ++
              hostOutput cfg (processBlock cfg s buffer busy).state es).take j := hf
          rw [List.take_append_eq_append_take, List.mem_append] at hfo
          by_cases h : s.fifoBufferOutDNN.size < buffer.length
          · obtain ⟨hb, hs⟩ := processBlock_out_underrun cfg s buffer busy h
            rcases hfo with h1 | h2
            · rw [hb, List.map_replicate] at h1
              exact List.eq_of_mem_replicate (List.mem_of_mem_take h1)
            · refine ih _ j ?_ hst2 hno2 f
                (List.take_subset_take_left _ (Nat.sub_le _ _) h2)
              rw [hs]; exact hl
          · have hle : buffer.length ≤ s.fifoBufferOutDNN.size := by omega
            obtain ⟨hb, hs⟩ := processBlock_out_enough cfg s buffer busy hle
            have hlen : (s.fifoBufferOutDNN.data.take buffer.length).length
                = buffer.length := by
              simp only [List.length_take, RingBuffer.size] at *; omega
            have hm : (processBlock cfg s buffer busy).buffer.map HostSample.main
                = s.fifoBufferOutDNN.data.take buffer.length := by
              rw [hb]; exact map_main_zipWith _ _ (by omega)
            rw [hm] at hfo
            rcases hfo with h1 | h2
            · rw [List.take_take] at h1
              exact hl.2 f (List.take_subset_take_left _ (Nat.min_le_left _ _) h1)
            · rw [hlen] at h2
              refine ih _ (j - buffer.length) ?_ hst2 hno2 f h2
              rw [hs]
              refine ⟨?_, ?_⟩
              · simp only [RingBuffer.consume, List.length_drop]
                exact Nat.sub_le_sub_right hl.1 _
              · intro g hg
                exact hl.2 g (mem_take_drop_sub hg)

/-- C3: after `prepareToPlay` (the output ring buffer having room for the seed), for
every sequence of `processBlock` calls, parameter changes and inference results that do
not overflow the output ring buffer, the first
`OUTPUT_DELAY_SAMPLES - OUTPUT_DELAY_BIAS_SAMPLES` samples written to the host output
are zero on both channels (indeed the first `OUTPUT_DELAY_SAMPLES` are); the host
output has one sample per requested sample. -/
theorem leading_silence (cfg : Config) (s : HARDAudioProcessor) (sampleRate : ℚ)
    (samplesPerBlock : Int) (es : List Event)
    (hcap : cfg.OUTPUT_DELAY_SAMPLES ≤ s.fifoBufferOutDNN.capacity)
    (hstream : ∀ e ∈ es, e.isStream = true)
    (hno : noOverflow cfg (prepareToPlay cfg s sampleRate samplesPerBlock) es = true) :
    (∀ f ∈ (hostOutput cfg (prepareToPlay cfg s sampleRate samplesPerBlock) es).take
        (cfg.OUTPUT_DELAY_SAMPLES - cfg.OUTPUT_DELAY_BIAS_SAMPLES), f = zeroFrame) ∧
      (∀ f ∈ (hostOutput cfg (prepareToPlay cfg s sampleRate samplesPerBlock) es).take
        cfg.OUTPUT_DELAY_SAMPLES, f = zeroFrame) ∧
      (hostOutput cfg (prepareToPlay cfg s sampleRate samplesPerBlock) es).length
        = blockSamples es := by
  have hd : (prepareToPlay cfg s sampleRate samplesPerBlock).fifoBufferOutDNN.data
      = List.replicate cfg.OUTPUT_DELAY_SAMPLES zeroFrame := by
    rw [(prepareToPlay_out cfg s sampleRate samplesPerBlock).1, Nat.min_eq_left hcap]
  have hl : Lead cfg.OUTPUT_DELAY_SAMPLES
      (prepareToPlay cfg s sampleRate samplesPerBlock).fifoBufferOutDNN.data := by
    rw [hd]
    refine ⟨by rw [List.length_replicate], ?_⟩
    intro f hf
    exact List.eq_of_mem_replicate (List.mem_of_mem_take hf)
  have hall := silence_aux cfg es _ _ hl hstream hno
  refine ⟨?_, hall, hostOutput_length cfg _ es⟩
  intro f hf
  exact hall f (List.take_subset_take_left _ (Nat.sub_le _ _) hf)

/-- C3 at the end-to-end scenario: WINDOW = 1024, CACHE = 256, DELAY = 2048, BIAS = 128,
four callbacks of 1024 zero samples: the host output has 4096 samples and the first 1920
are zero. -/
theorem leading_silence_witness :
    (specConfig.OUTPUT_DELAY_SAMPLES
        ≤ (construct specConfig (blankMembers 4096)).fifoBufferOutDNN.capacity ∧
      (∀ e ∈ fourZeroCallbacks, e.isStream = true) ∧
      noOverflow specConfig
        (prepareToPlay specConfig (construct specConfig (blankMembers 4096)) 48000 1024)
        fourZeroCallbacks = true) ∧
    ((∀ f ∈ (hostOutput specConfig
          (prepareToPlay specConfig (construct specConfig (blankMembers 4096)) 48000 1024)
          fourZeroCallbacks).take 1920, f = zeroFrame) ∧
      (∀ f ∈ (hostOutput specConfig
          (prepareToPlay specConfig (construct specConfig (blankMembers 4096)) 48000 1024)
          fourZeroCallbacks).take 2048, f = zeroFrame) ∧
      (hostOutput specConfig
          (prepareToPlay specConfig (construct specConfig (blankMembers 4096)) 48000 1024)
          fourZeroCallbacks).length = blockSamples fourZeroCallbacks) ∧
    blockSamples fourZeroCallbacks = 4096 :=
  ⟨⟨by decide, by simp [fourZeroCallbacks, Event.isStream],
      by simp [fourZeroCallbacks, noOverflow]⟩,
    leading_silence specConfig (construct specConfig (blankMembers 4096)) 48000 1024
      fourZeroCallbacks (by decide) (by simp [fourZeroCallbacks, Event.isStream])
      (by simp [fourZeroCallbacks, noOverflow]),
    by simp only [fourZeroCallbacks, blockSamples, zeroBlock, List.length_replicate]⟩

end HARD
